import Mathlib

/-!
Verification of `src/main.py` (GitHub Actions artifact downloader).

The Python source is shallowly embedded: pure helpers become Lean functions,
the stateful parts (polling loop, orchestrator, download-and-extract) become
explicit state passing or trace-producing functions over an environment that
records the outcome of each external effect (HTTP transport, zip parsing,
filesystem contents).
-/

/-! ### Decimal rendering of a counter

Embeds the f-string rendering `f"{base}_{counter}{ext}"` used at
`src/main.py:260`: `counter` is printed in decimal. -/

def digitChar (d : Nat) : Char := Char.ofNat (48 + d)

def decDigitsCore : Nat → Nat → List Char
  | 0, _ => []
  | fuel + 1, n =>
    if n < 10 then [digitChar n]
    else decDigitsCore fuel (n / 10) ++ [digitChar (n % 10)]

def decDigits (n : Nat) : List Char := decDigitsCore (n + 1) n

def decVal (l : List Char) : Nat := l.foldl (fun a c => a * 10 + (c.toNat - 48)) 0

def decRepr (n : Nat) : String := String.mk (decDigits n)

theorem digitChar_toNat : ∀ d, d < 10 → (digitChar d).toNat = 48 + d := by decide

theorem decVal_append_digit (l : List Char) (c : Char) :
    decVal (l ++ [c]) = decVal l * 10 + (c.toNat - 48) := by
  simp [decVal, List.foldl_append]

theorem decVal_decDigitsCore : ∀ fuel n, n < fuel → decVal (decDigitsCore fuel n) = n := by
  intro fuel
  induction fuel with
  | zero => intro n h; omega
  | succ f ih =>
    intro n h
    rw [decDigitsCore]
    by_cases h10 : n < 10
    · rw [if_pos h10]
      simp [decVal, digitChar_toNat n h10]
    · rw [if_neg h10, decVal_append_digit, ih (n / 10) (by omega),
        digitChar_toNat (n % 10) (by omega)]
      omega

theorem decVal_decDigits (n : Nat) : decVal (decDigits n) = n :=
  decVal_decDigitsCore (n + 1) n (by omega)

theorem decDigits_inj {a b : Nat} (h : decDigits a = decDigits b) : a = b := by
  rw [← decVal_decDigits a, ← decVal_decDigits b, h]

theorem decRepr_inj {a b : Nat} (h : decRepr a = decRepr b) : a = b :=
  decDigits_inj (congrArg String.data h)

/-! ### `pathlib` stem/suffix

Embeds `Path.stem` / `Path.suffix` as used at `src/main.py:256-257`:
the name splits at its last dot, provided that dot is neither the first
nor the last character of the name. -/

def rfindDot : List Char → Option Nat
  | [] => none
  | c :: cs =>
    match rfindDot cs with
    | some i => some (i + 1)
    | none => if c = '.' then some 0 else none

def splitName (name : String) : String × String :=
  match rfindDot name.data with
  | some i =>
      if 0 < i ∧ i < name.data.length - 1 then
        (String.mk (name.data.take i), String.mk (name.data.drop i))
      else (name, "")
  | none => (name, "")

theorem data_append (a b : String) : (a ++ b).data = a.data ++ b.data := rfl

theorem splitName_append (name : String) :
    (splitName name).1 ++ (splitName name).2 = name := by
  unfold splitName
  cases h : rfindDot name.data with
  | none =>
    simp only [h]
    apply String.ext
    simp [data_append]
  | some i =>
    simp only [h]
    by_cases hi : 0 < i ∧ i < name.data.length - 1
    · rw [if_pos hi]
      apply String.ext
      simp [data_append]
    · rw [if_neg hi]
      apply String.ext
      simp [data_append]

/-! ### Conflict resolution loop

Embeds `src/main.py:253-261`: when the flattened destination name already
exists, candidates `{base}_{counter}{ext}` are tried for `counter = 1, 2, ...`
until a name not present at the destination is found. -/

def candAux (stem sfx : String) (k : Nat) : String :=
  stem ++ "_" ++ decRepr k ++ sfx

def candName (name : String) (k : Nat) : String :=
  candAux (splitName name).1 (splitName name).2 k

def findFreeName (ex : List String) (stem sfx : String) : Nat → Nat → Option String
  | 0, _ => none
  | fuel + 1, c =>
    if candAux stem sfx c ∈ ex then findFreeName ex stem sfx fuel (c + 1)
    else some (candAux stem sfx c)

def resolveDest (ex : List String) (name : String) : String :=
  if name ∈ ex then
    match findFreeName ex (splitName name).1 (splitName name).2 (ex.length + 1) 1 with
    | some d => d
    | none => name
  else name

theorem candAux_inj (stem sfx : String) {j k : Nat}
    (h : candAux stem sfx j = candAux stem sfx k) : j = k := by
  have hd : stem.data ++ ("_".data ++ ((decRepr j).data ++ sfx.data)) =
      stem.data ++ ("_".data ++ ((decRepr k).data ++ sfx.data)) := by
    have := congrArg String.data h
    simpa [candAux, data_append, List.append_assoc] using this
  have h1 := List.append_cancel_left (List.append_cancel_left hd)
  have h2 : (decRepr j).data = (decRepr k).data := List.append_cancel_right h1
  exact decRepr_inj (String.ext h2)

theorem findFreeName_none {ex : List String} {stem sfx : String} :
    ∀ fuel c, findFreeName ex stem sfx fuel c = none →
      ∀ i, i < fuel → candAux stem sfx (c + i) ∈ ex := by
  intro fuel
  induction fuel with
  | zero => intro c _ i hi; omega
  | succ n ih =>
    intro c h i hi
    rw [findFreeName] at h
    by_cases hm : candAux stem sfx c ∈ ex
    · rw [if_pos hm] at h
      cases i with
      | zero => simpa using hm
      | succ i =>
        have := ih (c + 1) h i (by omega)
        simpa [Nat.add_assoc, Nat.add_comm 1 i] using this
    · rw [if_neg hm] at h
      exact absurd h (by simp)

theorem findFreeName_spec {ex : List String} {stem sfx : String} :
    ∀ fuel c d, findFreeName ex stem sfx fuel c = some d →
      d ∉ ex ∧ ∃ k, c ≤ k ∧ d = candAux stem sfx k ∧
        ∀ j, c ≤ j → j < k → candAux stem sfx j ∈ ex := by
  intro fuel
  induction fuel with
  | zero => intro c d h; simp [findFreeName] at h
  | succ n ih =>
    intro c d h
    rw [findFreeName] at h
    by_cases hm : candAux stem sfx c ∈ ex
    · rw [if_pos hm] at h
      obtain ⟨hd, k, hk1, hk2, hk3⟩ := ih (c + 1) d h
      refine ⟨hd, k, by omega, hk2, ?_⟩
      intro j hj1 hj2
      by_cases hj : j = c
      · rwa [hj]
      · exact hk3 j (by omega) hj2
    · rw [if_neg hm] at h
      have hd : d = candAux stem sfx c := by
        injection h with h'
        exact h'.symm
      subst hd
      refine ⟨hm, c, le_refl c, rfl, ?_⟩
      intro j hj1 hj2; omega

theorem findFreeName_isSome (ex : List String) (stem sfx : String) :
    findFreeName ex stem sfx (ex.length + 1) 1 ≠ none := by
  intro h
  have hall := @findFreeName_none ex stem sfx _ _ h
  have hinj : Function.Injective (fun i : Nat => candAux stem sfx (1 + i)) := by
    intro a b hab
    have := candAux_inj stem sfx hab
    omega
  have hcard : ((Finset.range (ex.length + 1)).image
      (fun i => candAux stem sfx (1 + i))).card = ex.length + 1 := by
    rw [Finset.card_image_of_injective _ hinj, Finset.card_range]
  have hsub : ((Finset.range (ex.length + 1)).image
      (fun i => candAux stem sfx (1 + i))) ⊆ ex.toFinset := by
    intro x hx
    obtain ⟨i, hi, hix⟩ := Finset.mem_image.mp hx
    rw [Finset.mem_range] at hi
    rw [List.mem_toFinset]
    exact hix ▸ hall i hi
  have := Finset.card_le_card hsub
  have hle := List.toFinset_card_le ex
  omega

theorem resolveDest_spec {ex : List String} {name : String} (h : name ∈ ex) :
    resolveDest ex name ∉ ex ∧ ∃ k, 1 ≤ k ∧
      resolveDest ex name = candName name k ∧
      ∀ j, 1 ≤ j → j < k → candName name j ∈ ex := by
  unfold resolveDest
  rw [if_pos h]
  cases hf : findFreeName ex (splitName name).1 (splitName name).2 (ex.length + 1) 1 with
  | none => exact absurd hf (findFreeName_isSome ex _ _)
  | some d =>
    obtain ⟨hd, k, hk1, hk2, hk3⟩ := findFreeName_spec _ _ _ hf
    exact ⟨hd, k, hk1, hk2, hk3⟩

theorem resolveDest_not_mem (ex : List String) (name : String) :
    resolveDest ex name ∉ ex := by
  by_cases h : name ∈ ex
  · exact (resolveDest_spec h).1
  · simp [resolveDest, h]

/-! ### Flatten pipeline

Embeds the `flatten` branch of `download_zipfile` (`src/main.py:245-265`):
every regular file found recursively under the temporary extraction area is
visited in order; an entry with base name `artifact.zip` is skipped, every
other entry is moved to the destination under its (conflict-resolved) base
name and recorded. The state is the pair (names present at the destination,
recorded extracted names so far). -/

def baseName (p : List String) : String := p.getLastD ""

def flattenStep (st : List String × List String) (b : String) :
    List String × List String :=
  if b = "artifact.zip" then st
  else
    let d := resolveDest st.1 b
    (d :: st.1, st.2 ++ [d])

def flattenMove (existing : List String) (files : List (List String)) :
    List String × List String :=
  files.foldl (fun st f => flattenStep st (baseName f)) (existing, [])

theorem flattenStep_wrapper (st : List String × List String) :
    flattenStep st "artifact.zip" = st := by
  simp [flattenStep]

theorem flattenFold_filter :
    ∀ (fs : List (List String)) (st : List String × List String),
      fs.foldl (fun st f => flattenStep st (baseName f)) st =
      (fs.filter (fun f => baseName f != "artifact.zip")).foldl
        (fun st f => flattenStep st (baseName f)) st := by
  intro fs
  induction fs with
  | nil => intro st; rfl
  | cons f fs ih =>
    intro st
    by_cases h : baseName f = "artifact.zip"
    · simp only [List.foldl_cons, List.filter_cons, h, flattenStep_wrapper]
      simp only [bne_self_eq_false, Bool.false_eq_true, if_false]
      exact ih st
    · simp only [List.foldl_cons, List.filter_cons]
      rw [if_pos (by simpa using h)]
      simp only [List.foldl_cons]
      exact ih _

theorem flattenFold_length :
    ∀ (fs : List (List String)) (st : List String × List String),
      (fs.foldl (fun st f => flattenStep st (baseName f)) st).2.length =
      st.2.length + (fs.filter (fun f => baseName f != "artifact.zip")).length := by
  intro fs
  induction fs with
  | nil => intro st; simp
  | cons f fs ih =>
    intro st
    by_cases h : baseName f = "artifact.zip"
    · simp only [List.foldl_cons, List.filter_cons, h, flattenStep_wrapper]
      simp only [bne_self_eq_false, Bool.false_eq_true, if_false]
      exact ih st
    · simp only [List.foldl_cons, List.filter_cons]
      rw [if_pos (by simpa using h)]
      rw [ih _]
      have hstep : (flattenStep st (baseName f)).2.length = st.2.length + 1 := by
        simp [flattenStep, h]
      rw [hstep]
      simp only [List.length_cons]
      omega

theorem flattenFold_acc (ex : List String) :
    ∀ (fs : List (List String)) (st : List String × List String),
      st.1 = st.2.reverse ++ ex →
      (fs.foldl (fun st f => flattenStep st (baseName f)) st).1 =
      (fs.foldl (fun st f => flattenStep st (baseName f)) st).2.reverse ++ ex := by
  intro fs
  induction fs with
  | nil => intro st h; simpa using h
  | cons f fs ih =>
    intro st h
    simp only [List.foldl_cons]
    apply ih
    by_cases hb : baseName f = "artifact.zip"
    · rw [hb, flattenStep_wrapper]; exact h
    · simp only [flattenStep, hb, if_false, if_neg hb]
      simp [h]

theorem flattenFold_nodup :
    ∀ (fs : List (List String)) (st : List String × List String),
      st.1.Nodup →
      (fs.foldl (fun st f => flattenStep st (baseName f)) st).1.Nodup := by
  intro fs
  induction fs with
  | nil => intro st h; simpa using h
  | cons f fs ih =>
    intro st h
    simp only [List.foldl_cons]
    apply ih
    by_cases hb : baseName f = "artifact.zip"
    · rw [hb, flattenStep_wrapper]; exact h
    · simp only [flattenStep, if_neg hb]
      exact List.nodup_cons.mpr ⟨resolveDest_not_mem st.1 (baseName f), h⟩

/-! ### `download_zipfile` (src/main.py:189-283)

The function is modelled over an environment recording the outcome of each
external effect: whether the streamed GET succeeds, how many bytes arrive,
whether the archive parses, whether `extractall` into the fresh temporary
directory succeeds, the regular files found (in `rglob` order) under the
temporary extraction area, and the regular files already present under the
destination directory (as component paths). The result records the returned
value or raised error together with the final state of the scoped resources
(the temporary archive file and the temporary extraction directory) and of
the destination directory. -/

inductive DZErr where
  | transport
  | extraction
  deriving DecidableEq

structure DZEnv where
  transportOk : Bool
  payload : Nat
  zipOk : Bool
  extractAllOk : Bool
  flatten : Bool
  entries : List (List String)
  destFiles : List (List String)
  deriving DecidableEq

structure DZResult where
  outcome : Except DZErr (List (List String))
  warnedEmpty : Bool
  extractionAttempted : Bool
  tmpFileRemoved : Bool
  tmpDirCreated : Bool
  tmpDirRemoved : Bool
  destFilesAfter : List (List String)

def download_zipfile (env : DZEnv) : DZResult :=
  if env.transportOk = false then
    -- `requests.get` / `raise_for_status` fails: the `finally` block removes
    -- the temporary archive; no extraction directory was created yet.
    { outcome := .error .transport, warnedEmpty := false,
      extractionAttempted := false, tmpFileRemoved := true,
      tmpDirCreated := false, tmpDirRemoved := false,
      destFilesAfter := env.destFiles }
  else if env.payload = 0 then
    -- src/main.py:227-229: empty download returns [] with a warning.
    { outcome := .ok [], warnedEmpty := true,
      extractionAttempted := false, tmpFileRemoved := true,
      tmpDirCreated := false, tmpDirRemoved := false,
      destFilesAfter := env.destFiles }
  else if env.zipOk = false then
    -- `ZipFile(tmp_path)` / `namelist()` fails before `mkdtemp` runs.
    { outcome := .error .extraction, warnedEmpty := false,
      extractionAttempted := true, tmpFileRemoved := true,
      tmpDirCreated := false, tmpDirRemoved := false,
      destFilesAfter := env.destFiles }
  else if env.extractAllOk = false then
    -- `zf.extractall(temp_extract_dir)` fails after `mkdtemp`: the re-raise at
    -- src/main.py:276-278 skips the `rmtree` at src/main.py:274, so the
    -- temporary extraction directory is left behind.
    { outcome := .error .extraction, warnedEmpty := false,
      extractionAttempted := true, tmpFileRemoved := true,
      tmpDirCreated := true, tmpDirRemoved := false,
      destFilesAfter := env.destFiles }
  else if env.flatten then
    -- src/main.py:245-265: move each non-wrapper file to the destination
    -- under its conflict-resolved base name.
    let r := flattenMove (env.destFiles.filterMap List.head?) env.entries
    { outcome := .ok (r.2.map (fun n => [n])), warnedEmpty := false,
      extractionAttempted := true, tmpFileRemoved := true,
      tmpDirCreated := true, tmpDirRemoved := true,
      destFilesAfter := env.destFiles ++ r.2.map (fun n => [n]) }
  else
    -- src/main.py:266-271: extract directly into the destination directory,
    -- then record every regular file found under it whose base name is not
    -- `artifact.zip` (the wrapper itself is extracted, only not recorded).
    { outcome := .ok ((env.destFiles ++ env.entries).filter
        (fun p => baseName p != "artifact.zip")),
      warnedEmpty := false, extractionAttempted := true, tmpFileRemoved := true,
      tmpDirCreated := true, tmpDirRemoved := true,
      destFilesAfter := env.destFiles ++ env.entries }

/-! ### Polling loop `wait_for_workflow_completion` (src/main.py:102-150)

The loop is modelled as a trace of observable events, indexed by the status
the remote API reports at each fetch and by the wall-clock duration of each
fetch. `now` is the elapsed time when an iteration starts; the elapsed value
the code computes at src/main.py:130 is `now + dur i`. A sleep advances the
clock by `poll_interval`. The `while True` loop is approximated by a fuel
parameter; every theorem quantifies over all sufficiently large fuel. -/

inductive PEv where
  | fetch (i : Nat)
  | sleep
  | notifyTimeout
  | raiseTimeout
  | completed (i : Nat)
  deriving DecidableEq

def wait_for_workflow_completion (timeout pollInterval : Nat)
    (status : Nat → String) (dur : Nat → Nat) : Nat → Nat → Nat → List PEv
  | 0, _, _ => []
  | fuel + 1, i, now =>
    PEv.fetch i ::
      (if status i = "completed" then [PEv.completed i]
       else if timeout ≤ now + dur i then [PEv.notifyTimeout, PEv.raiseTimeout]
       else PEv.sleep ::
         wait_for_workflow_completion timeout pollInterval status dur fuel
           (i + 1) (now + dur i + pollInterval))

/-! ### Orchestrator `download_artifacts` (src/main.py:339-457)

Modelled as a trace of observable events over an environment holding the run
the initial fetch returns, the run the polling loop would return, the listed
artifacts (name and number of files a download would extract), and per-name
filesystem/download facts. `exited c` stands for `sys.exit(c)`. -/

structure Run where
  status : String
  conclusion : Option String
  deriving DecidableEq

inductive OEv where
  | fetchRun
  | waitForCompletion
  | notifySuccess
  | notifyFailure (c : String)
  | listArtifacts
  | skipArtifact (name : String)
  | downloadArtifact (name : String)
  | exited (code : Nat)
  | finished (total : Nat)
  deriving DecidableEq

structure OEnv where
  fetchOk : Bool
  run : Run
  wait : Bool
  waitOk : Bool
  waitRun : Run
  listOk : Bool
  artifacts : List (String × Nat)
  flatten : Bool
  existingNonEmpty : String → Bool
  downloadOk : String → Bool

/-- The per-artifact loop at src/main.py:435-456: with flattening off, an
artifact whose subdirectory exists and is non-empty is skipped; otherwise the
artifact is fetched and extracted, and a failure exits with code 1. -/
def downloadLoop (flatten : Bool) (existingNonEmpty downloadOk : String → Bool) :
    List (String × Nat) → Nat → List OEv
  | [], total => [OEv.finished total]
  | (name, cnt) :: rest, total =>
    if flatten = false ∧ existingNonEmpty name = true then
      OEv.skipArtifact name :: downloadLoop flatten existingNonEmpty downloadOk rest total
    else if downloadOk name then
      OEv.downloadArtifact name ::
        downloadLoop flatten existingNonEmpty downloadOk rest (total + cnt)
    else [OEv.downloadArtifact name, OEv.exited 1]

/-- The optional waiting phase at src/main.py:377-388: returns the run used
from then on (none when the wait timed out and the function exited), plus the
events of this phase. -/
def afterWait (env : OEnv) : Option Run × List OEv :=
  if env.wait = true ∧ env.run.status ≠ "completed" then
    if env.waitOk then (some env.waitRun, [OEv.waitForCompletion])
    else (none, [OEv.waitForCompletion, OEv.exited 1])
  else (some env.run, [])

/-- The listing and downloading phases at src/main.py:417-457. -/
def listingPhase (env : OEnv) : List OEv :=
  OEv.listArtifacts ::
    (if env.listOk = false then [OEv.exited 1]
     else if env.artifacts = [] then [OEv.exited 1]
     else downloadLoop env.flatten env.existingNonEmpty env.downloadOk env.artifacts 0)

def download_artifacts (env : OEnv) : List OEv :=
  OEv.fetchRun ::
    (if env.fetchOk = false then [OEv.exited 1]
     else
       (afterWait env).2 ++
         (match (afterWait env).1 with
          | none => []
          | some run =>
            match run.conclusion with
            | some c =>
              if c = "success" then OEv.notifySuccess :: listingPhase env
              else [OEv.notifyFailure c, OEv.exited 1]
            | none => [OEv.exited 1]))

/-! ### `parse_run_url` (src/main.py:171-185)

`re.match` anchors the pattern
`https://github\.com/([^/]+)/([^/]+)/actions/runs/(\d+)` at the start of the
string and ignores anything after the match. The character class `[^/]+` is
greedy over non-slash characters and `\d+` is a maximal digit run, so the
match is equivalent to the structural parse below.

The pattern is a `str` pattern compiled without `re.ASCII`, so `\d` matches
every Unicode decimal digit: the characters of general category Nd. `isReDigit`
embeds that class as its explicit codepoint ranges (Unicode 14.0.0, the
character database CPython 3.11 ships). -/

def ndRanges : List (Nat × Nat) :=
  [(48, 57), (1632, 1641), (1776, 1785), (1984, 1993), (2406, 2415),
    (2534, 2543), (2662, 2671), (2790, 2799), (2918, 2927), (3046, 3055),
    (3174, 3183), (3302, 3311), (3430, 3439), (3558, 3567), (3664, 3673),
    (3792, 3801), (3872, 3881), (4160, 4169), (4240, 4249), (6112, 6121),
    (6160, 6169), (6470, 6479), (6608, 6617), (6784, 6793), (6800, 6809),
    (6992, 7001), (7088, 7097), (7232, 7241), (7248, 7257), (42528, 42537),
    (43216, 43225), (43264, 43273), (43472, 43481), (43504, 43513),
    (43600, 43609), (44016, 44025), (65296, 65305), (66720, 66729),
    (68912, 68921), (69734, 69743), (69872, 69881), (69942, 69951),
    (70096, 70105), (70384, 70393), (70736, 70745), (70864, 70873),
    (71248, 71257), (71360, 71369), (71472, 71481), (71904, 71913),
    (72016, 72025), (72784, 72793), (73040, 73049), (73120, 73129),
    (92768, 92777), (92864, 92873), (93008, 93017), (120782, 120831),
    (123200, 123209), (123632, 123641), (125264, 125273), (130032, 130041)]

def isReDigit (c : Char) : Bool :=
  ndRanges.any (fun r => decide (r.1 ≤ c.toNat ∧ c.toNat ≤ r.2))

def ghLit : List Char := "https://github.com/".data

def runsLit : List Char := "/actions/runs/".data

def dropLit : List Char → List Char → Option (List Char)
  | [], s => some s
  | _ :: _, [] => none
  | p :: ps, c :: cs => if c = p then dropLit ps cs else none

def parse_run_url (url : String) : Option (String × String) :=
  match dropLit ghLit url.data with
  | none => none
  | some r1 =>
    match r1.dropWhile (fun c => c != '/') with
    | '/' :: r3 =>
      if r1.takeWhile (fun c => c != '/') = [] then none
      else if r3.takeWhile (fun c => c != '/') = [] then none
      else
        match dropLit runsLit (r3.dropWhile (fun c => c != '/')) with
        | none => none
        | some r5 =>
          if r5.takeWhile isReDigit = [] then none
          else some
            (String.mk (r1.takeWhile (fun c => c != '/') ++
              '/' :: r3.takeWhile (fun c => c != '/')),
             String.mk (r5.takeWhile isReDigit))
    | _ => none

/-! ### Wrapper-name lemmas -/

theorem candAux_ne_wrapper (stem sfx : String) (k : Nat) :
    candAux stem sfx k ≠ "artifact.zip" := by
  intro h
  have hu : '_' ∈ (candAux stem sfx k).data := by
    simp [candAux, data_append]
  rw [h] at hu
  exact absurd hu (by decide)

theorem resolveDest_ne_wrapper (ex : List String) {b : String}
    (hb : b ≠ "artifact.zip") : resolveDest ex b ≠ "artifact.zip" := by
  by_cases h : b ∈ ex
  · obtain ⟨-, k, -, hk, -⟩ := resolveDest_spec h
    rw [hk]
    exact candAux_ne_wrapper _ _ k
  · simpa [resolveDest, h] using hb

theorem flattenFold_no_wrapper :
    ∀ (fs : List (List String)) (st : List String × List String),
      "artifact.zip" ∉ st.2 →
      "artifact.zip" ∉ (fs.foldl (fun st f => flattenStep st (baseName f)) st).2 := by
  intro fs
  induction fs with
  | nil => intro st h; simpa using h
  | cons f fs ih =>
    intro st h
    simp only [List.foldl_cons]
    apply ih
    by_cases hb : baseName f = "artifact.zip"
    · rw [hb, flattenStep_wrapper]; exact h
    · simp only [flattenStep, if_neg hb]
      intro hmem
      rcases List.mem_append.mp hmem with hmem | hmem
      · exact h hmem
      · have := List.mem_singleton.mp hmem
        exact resolveDest_ne_wrapper st.1 hb this.symm

/-- C1: in flatten mode a conflicting destination name is resolved by
appending `_1`, `_2`, ... before the extension, taking the least counter whose
name is absent from the destination; consequently nothing present at the
destination is ever overwritten, and the recorded extracted list is exactly
the list of names the moves added on top of the initial destination
contents. -/
theorem c1_flatten_conflict_resolution :
    (∀ (ex : List String) (name : String), name ∈ ex →
      resolveDest ex name ∉ ex ∧ ∃ k, 1 ≤ k ∧
        resolveDest ex name = candName name k ∧
        ∀ j, 1 ≤ j → j < k → candName name j ∈ ex) ∧
    (∀ (ex : List String) (fs : List (List String)), ex.Nodup →
      (flattenMove ex fs).1 = (flattenMove ex fs).2.reverse ++ ex ∧
      (flattenMove ex fs).1.Nodup) := by
  constructor
  · intro ex name h
    exact resolveDest_spec h
  · intro ex fs h
    constructor
    · simpa [flattenMove] using flattenFold_acc ex fs (ex, []) (by simp)
    · simpa [flattenMove] using flattenFold_nodup fs (ex, []) h

/-- Witness for C1 at `ex = ["a.txt"]`: the conflicting name `a.txt` resolves
away from the existing contents, and a single-file flatten run records
exactly the moved name on top of the initial contents. -/
theorem c1_witness :
    ("a.txt" ∈ ["a.txt"] ∧
      (resolveDest ["a.txt"] "a.txt" ∉ ["a.txt"] ∧ ∃ k, 1 ≤ k ∧
        resolveDest ["a.txt"] "a.txt" = candName "a.txt" k ∧
        ∀ j, 1 ≤ j → j < k → candName "a.txt" j ∈ ["a.txt"])) ∧
    (List.Nodup ["a.txt"] ∧
      ((flattenMove ["a.txt"] [["a.txt"]]).1 =
        (flattenMove ["a.txt"] [["a.txt"]]).2.reverse ++ ["a.txt"] ∧
       (flattenMove ["a.txt"] [["a.txt"]]).1.Nodup)) :=
  ⟨⟨by decide, c1_flatten_conflict_resolution.1 ["a.txt"] "a.txt" (by decide)⟩,
   ⟨by decide, c1_flatten_conflict_resolution.2 ["a.txt"] [["a.txt"]] (by decide)⟩⟩

/-- C2: when flattening, an entry whose base name is exactly `artifact.zip`
has no effect at all (it is neither moved to the destination nor recorded):
the pipeline behaves as if those entries were filtered out, every other file
contributes exactly one recorded destination name, and the wrapper name never
appears in the recorded list. -/
theorem c2_flatten_skips_wrapper (ex : List String) (fs : List (List String)) :
    flattenMove ex fs =
      flattenMove ex (fs.filter (fun f => baseName f != "artifact.zip")) ∧
    (flattenMove ex fs).2.length =
      (fs.filter (fun f => baseName f != "artifact.zip")).length ∧
    "artifact.zip" ∉ (flattenMove ex fs).2 := by
  refine ⟨?_, ?_, ?_⟩
  · simpa [flattenMove] using flattenFold_filter fs (ex, [])
  · simpa [flattenMove] using flattenFold_length fs (ex, [])
  · simpa [flattenMove] using flattenFold_no_wrapper fs (ex, []) (by simp)

/-! ### C3, C4, C7: `download_zipfile` resource and layout facts -/

def c3FailEnv : DZEnv :=
  { transportOk := true, payload := 5, zipOk := true, extractAllOk := false,
    flatten := true, entries := [["data.txt"]], destFiles := [] }

/-- Counterexample to C3: on the extraction-failure exit path the temporary
extraction directory has been created but is not removed before the error
propagates (the `rmtree` at src/main.py:274 sits inside the `try` block, not
in the `finally` clause). -/
theorem c3_counterexample :
    (download_zipfile c3FailEnv).tmpDirCreated = true ∧
    (download_zipfile c3FailEnv).tmpDirRemoved = false :=
  ⟨rfl, rfl⟩

/-- C3 (amended): the temporary downloaded archive is removed on every exit
path (its removal sits in the `finally` clause), but the temporary extraction
directory is removed exactly when extraction into it succeeds — when
`extractall` fails after the directory was created, the directory is left
behind. -/
theorem c3_amended_cleanup (env : DZEnv) :
    (download_zipfile env).tmpFileRemoved = true ∧
    (download_zipfile env).tmpDirRemoved =
      ((download_zipfile env).tmpDirCreated && env.extractAllOk) := by
  obtain ⟨t, p, z, e, fl, en, df⟩ := env
  cases t <;> cases z <;> cases e <;> cases fl <;>
    by_cases hp : p = 0 <;>
    simp [download_zipfile, hp]

def c4LogsEnv : DZEnv :=
  { transportOk := true, payload := 100, zipOk := true, extractAllOk := true,
    flatten := false, entries := [["run.log"], ["artifact.zip"]], destFiles := [] }

def c4BuildEnv : DZEnv :=
  { transportOk := true, payload := 100, zipOk := true, extractAllOk := true,
    flatten := false, entries := [["app.bin"]], destFiles := [] }

/-- The destination directory produced by the non-flattened run of the C4
scenario: artifact `logs` is extracted into subdirectory `logs/`, artifact
`build` into `build/` (src/main.py:439-441 chooses `output_path / name`). -/
def c4DestDisk : List (List String) :=
  (download_zipfile c4LogsEnv).destFilesAfter.map (fun p => "logs" :: p) ++
    (download_zipfile c4BuildEnv).destFilesAfter.map (fun p => "build" :: p)

/-- Counterexample to C4: with flattening off, `zf.extractall(output_dir)` at
src/main.py:268 extracts every entry, so `artifact.zip` is present on disk in
`logs/` — the claim says it is absent. Only the recorded list excludes it. -/
theorem c4_counterexample : ["logs", "artifact.zip"] ∈ c4DestDisk := by decide

/-- C4 (amended): with flattening off, the destination holds subdirectories
`logs/` and `build/` with their respective files, but `artifact.zip` is
present on disk inside `logs/`; the recorded extracted-file lists exclude any
file whose base name is the reserved wrapper name. -/
theorem c4_noflatten_layout :
    c4DestDisk =
      [["logs", "run.log"], ["logs", "artifact.zip"], ["build", "app.bin"]] ∧
    (download_zipfile c4LogsEnv).outcome = .ok [["run.log"]] ∧
    (download_zipfile c4BuildEnv).outcome = .ok [["app.bin"]] :=
  ⟨rfl, rfl, rfl⟩

/-- C7: a zero-byte downloaded archive returns an empty extracted list with a
warning and no error; no extraction is attempted, nothing is written into the
destination directory, and the temporary archive is still cleaned up. -/
theorem c7_zero_byte_archive (env : DZEnv)
    (ht : env.transportOk = true) (hp : env.payload = 0) :
    (download_zipfile env).outcome = .ok [] ∧
    (download_zipfile env).warnedEmpty = true ∧
    (download_zipfile env).extractionAttempted = false ∧
    (download_zipfile env).destFilesAfter = env.destFiles ∧
    (download_zipfile env).tmpFileRemoved = true := by
  simp [download_zipfile, ht, hp]

def c7Env : DZEnv :=
  { transportOk := true, payload := 0, zipOk := true, extractAllOk := true,
    flatten := true, entries := [], destFiles := [["old.txt"]] }

/-- Witness for C7 at a concrete zero-byte environment. -/
theorem c7_witness :
    (c7Env.transportOk = true ∧ c7Env.payload = 0) ∧
    ((download_zipfile c7Env).outcome = .ok [] ∧
     (download_zipfile c7Env).warnedEmpty = true ∧
     (download_zipfile c7Env).extractionAttempted = false ∧
     (download_zipfile c7Env).destFilesAfter = c7Env.destFiles ∧
     (download_zipfile c7Env).tmpFileRemoved = true) :=
  ⟨⟨rfl, rfl⟩, c7_zero_byte_archive c7Env rfl rfl⟩

/-! ### C5: polling with `timeout < poll_interval` -/

/-- C5: whenever `timeout < poll_interval` and the run never reports
`completed`, the loop trace (for any sufficient fuel) starts with a status
fetch, performs at most one sleep, and ends with the timeout notification
immediately followed by the `Timeout` error: either the very first elapsed
check already exceeds the timeout (no sleep), or there is exactly one sleep,
one further fetch, and then the notification and the error. -/
theorem c5_poll_timeout_single_sleep
    (timeout pollInterval : Nat) (status : Nat → String) (dur : Nat → Nat)
    (fuel : Nat) (ht : timeout < pollInterval)
    (hs : ∀ i, status i ≠ "completed") (hf : 2 ≤ fuel) :
    wait_for_workflow_completion timeout pollInterval status dur fuel 0 0 =
      [PEv.fetch 0, PEv.notifyTimeout, PEv.raiseTimeout] ∨
    wait_for_workflow_completion timeout pollInterval status dur fuel 0 0 =
      [PEv.fetch 0, PEv.sleep, PEv.fetch 1, PEv.notifyTimeout, PEv.raiseTimeout] := by
  obtain ⟨m, rfl⟩ : ∃ m, fuel = m + 2 := ⟨fuel - 2, by omega⟩
  rw [wait_for_workflow_completion]
  rw [if_neg (hs 0)]
  by_cases h0 : timeout ≤ 0 + dur 0
  · rw [if_pos h0]
    exact Or.inl rfl
  · rw [if_neg h0]
    rw [wait_for_workflow_completion]
    rw [if_neg (hs 1)]
    rw [if_pos (by omega)]
    exact Or.inr rfl

/-- Witness for C5 at `timeout = 1`, `poll_interval = 2`, a run that stays
`in_progress`, instantaneous fetches, and fuel 2. -/
theorem c5_witness :
    (1 < 2 ∧ (∀ i : Nat, (fun _ : Nat => "in_progress") i ≠ "completed") ∧ 2 ≤ 2) ∧
    (wait_for_workflow_completion 1 2 (fun _ => "in_progress") (fun _ => 0) 2 0 0 =
        [PEv.fetch 0, PEv.notifyTimeout, PEv.raiseTimeout] ∨
     wait_for_workflow_completion 1 2 (fun _ => "in_progress") (fun _ => 0) 2 0 0 =
        [PEv.fetch 0, PEv.sleep, PEv.fetch 1, PEv.notifyTimeout, PEv.raiseTimeout]) :=
  ⟨⟨by decide, fun _ => by simp, by decide⟩,
   c5_poll_timeout_single_sleep 1 2 (fun _ => "in_progress") (fun _ => 0) 2
     (by decide) (fun _ => by simp) (by decide)⟩

/-! ### C6, C8, C10: orchestrator traces -/

theorem afterWait_events (env : OEnv) {run : Run}
    (h : (afterWait env).1 = some run) :
    (afterWait env).2 = [] ∨ (afterWait env).2 = [OEv.waitForCompletion] := by
  unfold afterWait at h ⊢
  by_cases hw : env.wait = true ∧ env.run.status ≠ "completed"
  · rw [if_pos hw] at h ⊢
    by_cases hok : env.waitOk = true
    · rw [if_pos hok]; exact Or.inr rfl
    · rw [if_neg hok] at h
      exact absurd h (by simp)
  · rw [if_neg hw]; exact Or.inl rfl

/-- C6: when the run in force after the (possible) wait has a concluded value
other than `success`, the trace emits the failure notification and exits with
code 1, and it never reaches the artifacts-listing request nor any artifact
download. -/
theorem c6_failure_conclusion_no_listing
    (env : OEnv) (run : Run) (c : String)
    (hf : env.fetchOk = true) (hw : (afterWait env).1 = some run)
    (hc : run.conclusion = some c) (hcs : c ≠ "success") :
    OEv.listArtifacts ∉ download_artifacts env ∧
    (∀ n, OEv.downloadArtifact n ∉ download_artifacts env) ∧
    ∃ pre, download_artifacts env = pre ++ [OEv.notifyFailure c, OEv.exited 1] := by
  have htr : download_artifacts env =
      OEv.fetchRun :: ((afterWait env).2 ++ [OEv.notifyFailure c, OEv.exited 1]) := by
    unfold download_artifacts
    rw [hf, hw]
    simp [hc, hcs]
  rcases afterWait_events env hw with hev | hev <;>
    rw [htr, hev] <;>
    exact ⟨by simp, fun n => by simp, OEv.fetchRun :: _, rfl⟩

def c6Env : OEnv :=
  { fetchOk := true, run := { status := "completed", conclusion := some "failure" },
    wait := false, waitOk := true,
    waitRun := { status := "completed", conclusion := some "failure" },
    listOk := true, artifacts := [("logs", 2)], flatten := true,
    existingNonEmpty := fun _ => false, downloadOk := fun _ => true }

/-- Witness for C6 at a fetched run that concluded with `failure`. -/
theorem c6_witness :
    (c6Env.fetchOk = true ∧ (afterWait c6Env).1 = some c6Env.run ∧
      c6Env.run.conclusion = some "failure" ∧ "failure" ≠ "success") ∧
    (OEv.listArtifacts ∉ download_artifacts c6Env ∧
     (∀ n, OEv.downloadArtifact n ∉ download_artifacts c6Env) ∧
     ∃ pre, download_artifacts c6Env =
        pre ++ [OEv.notifyFailure "failure", OEv.exited 1]) :=
  ⟨⟨rfl, rfl, rfl, by decide⟩,
   c6_failure_conclusion_no_listing c6Env c6Env.run "failure" rfl rfl rfl (by decide)⟩

/-- C8: in the downloading loop with flattening off, an artifact whose
subdirectory already exists non-empty is skipped — the loop emits only the
skip event for it (no fetch, no error exit from the skip) and continues with
the remaining artifacts, in order, from the same running total. -/
theorem c8_noflatten_skips_existing
    (en dok : String → Bool) (name : String) (cnt : Nat)
    (rest : List (String × Nat)) (total : Nat) (h : en name = true) :
    downloadLoop false en dok ((name, cnt) :: rest) total =
      OEv.skipArtifact name :: downloadLoop false en dok rest total ∧
    (OEv.exited 1 ∈ downloadLoop false en dok ((name, cnt) :: rest) total ↔
      OEv.exited 1 ∈ downloadLoop false en dok rest total) ∧
    (OEv.downloadArtifact name ∈ downloadLoop false en dok ((name, cnt) :: rest) total ↔
      OEv.downloadArtifact name ∈ downloadLoop false en dok rest total) := by
  have htr : downloadLoop false en dok ((name, cnt) :: rest) total =
      OEv.skipArtifact name :: downloadLoop false en dok rest total := by
    rw [downloadLoop]
    rw [if_pos ⟨rfl, h⟩]
  refine ⟨htr, ?_, ?_⟩ <;> rw [htr] <;> simp

/-- Witness for C8 at a single remaining artifact whose directory exists and
is non-empty. -/
theorem c8_witness :
    ((fun _ : String => true) "logs" = true) ∧
    (downloadLoop false (fun _ => true) (fun _ => true) [("logs", 2)] 0 =
        OEv.skipArtifact "logs" ::
          downloadLoop false (fun _ => true) (fun _ => true) [] 0 ∧
      (OEv.exited 1 ∈ downloadLoop false (fun _ => true) (fun _ => true) [("logs", 2)] 0 ↔
        OEv.exited 1 ∈ downloadLoop false (fun _ => true) (fun _ => true) [] 0) ∧
      (OEv.downloadArtifact "logs" ∈
          downloadLoop false (fun _ => true) (fun _ => true) [("logs", 2)] 0 ↔
        OEv.downloadArtifact "logs" ∈
          downloadLoop false (fun _ => true) (fun _ => true) [] 0)) :=
  ⟨rfl, c8_noflatten_skips_existing (fun _ => true) (fun _ => true) "logs" 2 [] 0 rfl⟩

/-- C10: with waiting disabled and a fetched run whose status is not
`completed` (hence, per the data model, a `None` conclusion), the program
takes the unknown-status branch and exits with code 1 without listing or
downloading anything. -/
theorem c10_no_wait_incomplete_run (env : OEnv)
    (hf : env.fetchOk = true) (hw : env.wait = false)
    (_hs : env.run.status ≠ "completed") (hc : env.run.conclusion = none) :
    download_artifacts env = [OEv.fetchRun, OEv.exited 1] ∧
    OEv.listArtifacts ∉ download_artifacts env ∧
    ∀ n, OEv.downloadArtifact n ∉ download_artifacts env := by
  have htr : download_artifacts env = [OEv.fetchRun, OEv.exited 1] := by
    unfold download_artifacts afterWait
    rw [hf, hw]
    simp [hc]
  exact ⟨htr, by rw [htr]; decide, fun n => by rw [htr]; simp⟩

def c10Env : OEnv :=
  { fetchOk := true, run := { status := "in_progress", conclusion := none },
    wait := false, waitOk := true,
    waitRun := { status := "in_progress", conclusion := none },
    listOk := true, artifacts := [("logs", 2)], flatten := true,
    existingNonEmpty := fun _ => false, downloadOk := fun _ => true }

/-- Witness for C10 at a still-running run fetched with `wait = False`. -/
theorem c10_witness :
    (c10Env.fetchOk = true ∧ c10Env.wait = false ∧
      c10Env.run.status ≠ "completed" ∧ c10Env.run.conclusion = none) ∧
    (download_artifacts c10Env = [OEv.fetchRun, OEv.exited 1] ∧
     OEv.listArtifacts ∉ download_artifacts c10Env ∧
     ∀ n, OEv.downloadArtifact n ∉ download_artifacts c10Env) :=
  ⟨⟨rfl, rfl, by decide, rfl⟩,
   c10_no_wait_incomplete_run c10Env rfl rfl (by decide) rfl⟩

/-! ### List helpers for the parser proof -/

theorem dropLit_iff : ∀ (pre s r : List Char), dropLit pre s = some r ↔ s = pre ++ r := by
  intro pre
  induction pre with
  | nil =>
    intro s r
    simp [dropLit]
  | cons p ps ih =>
    intro s r
    cases s with
    | nil => simp [dropLit]
    | cons c cs =>
      rw [dropLit]
      by_cases h : c = p
      · rw [if_pos h, ih cs r]
        subst h
        simp
      · rw [if_neg h]
        simp [h]

theorem mem_takeWhile {α : Type} (p : α → Bool) :
    ∀ (l : List α) (a : α), a ∈ l.takeWhile p → p a = true := by
  intro l
  induction l with
  | nil => intro a h; simp [List.takeWhile] at h
  | cons c cs ih =>
    intro a h
    rw [List.takeWhile_cons] at h
    by_cases hc : p c = true
    · rw [if_pos hc] at h
      rcases List.mem_cons.mp h with rfl | h
      · exact hc
      · exact ih a h
    · rw [if_neg hc] at h
      simp at h

theorem takeWhile_append_all {α : Type} (p : α → Bool) :
    ∀ (xs ys : List α), (∀ x ∈ xs, p x = true) →
      (xs ++ ys).takeWhile p = xs ++ ys.takeWhile p := by
  intro xs
  induction xs with
  | nil => intro ys _; simp
  | cons c cs ih =>
    intro ys h
    have hc : p c = true := h c (by simp)
    simp only [List.cons_append, List.takeWhile_cons, hc, if_true]
    rw [ih ys (fun x hx => h x (by simp [hx]))]

theorem dropWhile_append_all {α : Type} (p : α → Bool) :
    ∀ (xs ys : List α), (∀ x ∈ xs, p x = true) →
      (xs ++ ys).dropWhile p = ys.dropWhile p := by
  intro xs
  induction xs with
  | nil => intro ys _; simp
  | cons c cs ih =>
    intro ys h
    have hc : p c = true := h c (by simp)
    simp only [List.cons_append, List.dropWhile_cons, hc, if_true]
    exact ih ys (fun x hx => h x (by simp [hx]))

theorem takeWhile_nil_of_head {α : Type} (p : α → Bool) (ys : List α)
    (h : ∀ c ∈ ys.head?, p c = false) : ys.takeWhile p = [] := by
  cases ys with
  | nil => rfl
  | cons c cs =>
    have := h c (by simp)
    simp [List.takeWhile_cons, this]

theorem dropWhile_self_of_head {α : Type} (p : α → Bool) (ys : List α)
    (h : ∀ c ∈ ys.head?, p c = false) : ys.dropWhile p = ys := by
  cases ys with
  | nil => rfl
  | cons c cs =>
    have := h c (by simp)
    simp [List.dropWhile_cons, this]

theorem takeWhile_append_stop {α : Type} (p : α → Bool) (xs ys : List α)
    (hall : ∀ x ∈ xs, p x = true) (hys : ∀ c ∈ ys.head?, p c = false) :
    (xs ++ ys).takeWhile p = xs := by
  rw [takeWhile_append_all p xs ys hall, takeWhile_nil_of_head p ys hys,
    List.append_nil]

theorem dropWhile_append_stop {α : Type} (p : α → Bool) (xs ys : List α)
    (hall : ∀ x ∈ xs, p x = true) (hys : ∀ c ∈ ys.head?, p c = false) :
    (xs ++ ys).dropWhile p = ys := by
  rw [dropWhile_append_all p xs ys hall, dropWhile_self_of_head p ys hys]

theorem head_dropWhile {α : Type} (p : α → Bool) :
    ∀ (l : List α), ∀ c ∈ (l.dropWhile p).head?, p c = false := by
  intro l
  induction l with
  | nil => intro c h; simp at h
  | cons a as ih =>
    intro c h
    rw [List.dropWhile_cons] at h
    by_cases ha : p a = true
    · rw [if_pos ha] at h
      exact ih c h
    · rw [if_neg ha] at h
      simp only [List.head?_cons, Option.mem_def, Option.some.injEq] at h
      subst h
      exact Bool.not_eq_true _ ▸ ha

theorem ghLit_eq : "https://github.com/".data = ghLit := rfl

theorem runsLit_eq : "/actions/runs/".data = runsLit := rfl

theorem slash_data : "/".data = ['/'] := rfl

theorem mk_data (l : List Char) : (String.mk l).data = l := rfl

/-- C9: `parse_run_url` succeeds exactly on strings that start with the
prefix `https://github.com/<owner>/<repo>/actions/runs/<digits>` (with
`<owner>`, `<repo>` non-empty and slash-free and `<digits>` a non-empty
maximal run of characters matched by the pattern's `\d`, i.e. Unicode
decimal digits of category Nd, embedded by `isReDigit`); trailing characters
after the digit run are ignored, the returned pair is built from the matching
prefix, and every other string is rejected (the code then raises
`ValueError`). -/
theorem c9_parse_run_url_characterization (url : String) (p : String × String) :
    parse_run_url url = some p ↔
      ∃ owner repo rid rest : String,
        url = "https://github.com/" ++ owner ++ "/" ++ repo ++
          "/actions/runs/" ++ rid ++ rest ∧
        owner ≠ "" ∧ (∀ c ∈ owner.data, c ≠ '/') ∧
        repo ≠ "" ∧ (∀ c ∈ repo.data, c ≠ '/') ∧
        rid ≠ "" ∧ (∀ c ∈ rid.data, isReDigit c = true) ∧
        (∀ c ∈ rest.data.head?, isReDigit c = false) ∧
        p = (owner ++ "/" ++ repo, rid) := by
  constructor
  · intro hp
    unfold parse_run_url at hp
    split at hp
    · exact absurd hp (by simp)
    · rename_i r1 hd
      split at hp
      · rename_i r3 hw
        split at hp
        · exact absurd hp (by simp)
        · rename_i ho
          split at hp
          · exact absurd hp (by simp)
          · rename_i hr
            split at hp
            · exact absurd hp (by simp)
            · rename_i r5 hruns
              split at hp
              · exact absurd hp (by simp)
              · rename_i hrid
                have hp' := (Option.some.injEq _ _).mp hp
                have hu : url.data = ghLit ++ r1 := (dropLit_iff ghLit url.data r1).mp hd
                have hr1 : r1 = r1.takeWhile (fun c => c != '/') ++ ('/' :: r3) := by
                  conv_lhs => rw [← List.takeWhile_append_dropWhile
                    (fun c => c != '/') r1]
                  rw [hw]
                have hr3d : r3.dropWhile (fun c => c != '/') = runsLit ++ r5 :=
                  (dropLit_iff runsLit _ r5).mp hruns
                have hr3 : r3 = r3.takeWhile (fun c => c != '/') ++ (runsLit ++ r5) := by
                  conv_lhs => rw [← List.takeWhile_append_dropWhile
                    (fun c => c != '/') r3]
                  rw [hr3d]
                have hr5 : r5 = r5.takeWhile isReDigit ++ r5.dropWhile isReDigit :=
                  (List.takeWhile_append_dropWhile isReDigit r5).symm
                refine ⟨String.mk (r1.takeWhile (fun c => c != '/')),
                  String.mk (r3.takeWhile (fun c => c != '/')),
                  String.mk (r5.takeWhile isReDigit),
                  String.mk (r5.dropWhile isReDigit), ?_, ?_, ?_, ?_, ?_, ?_, ?_, ?_, ?_⟩
                · apply String.ext
                  rw [hu]
                  conv_lhs => rw [hr1]
                  conv_lhs => rw [hr3]
                  conv_lhs => rw [hr5]
                  simp only [data_append, mk_data, ghLit_eq, runsLit_eq, slash_data]
                  simp [ghLit, runsLit, List.append_assoc]
                · intro h
                  exact ho (by simpa using congrArg String.data h)
                · intro c hc
                  have := mem_takeWhile _ r1 c (by simpa [mk_data] using hc)
                  simpa using this
                · intro h
                  exact hr (by simpa using congrArg String.data h)
                · intro c hc
                  have := mem_takeWhile _ r3 c (by simpa [mk_data] using hc)
                  simpa using this
                · intro h
                  exact hrid (by simpa using congrArg String.data h)
                · intro c hc
                  exact mem_takeWhile _ r5 c (by simpa [mk_data] using hc)
                · intro c hc
                  exact head_dropWhile isReDigit r5 c (by simpa [mk_data] using hc)
                · have h1 : String.mk (r1.takeWhile (fun c => c != '/') ++
                      '/' :: r3.takeWhile (fun c => c != '/')) =
                      String.mk (r1.takeWhile (fun c => c != '/')) ++ "/" ++
                        String.mk (r3.takeWhile (fun c => c != '/')) :=
                    String.ext (by
                      simp [data_append, mk_data, slash_data, List.append_assoc])
                  rw [← hp', h1]
      · exact absurd hp (by simp)
  · rintro ⟨owner, repo, rid, rest, rfl, ho1, ho2, hr1c, hr2c, hi1, hi2, hrest, rfl⟩
    have howner : ∀ x ∈ owner.data, (x != '/') = true := by
      intro x hx; simpa using ho2 x hx
    have hrepo : ∀ x ∈ repo.data, (x != '/') = true := by
      intro x hx; simpa using hr2c x hx
    have hdata : ("https://github.com/" ++ owner ++ "/" ++ repo ++
        "/actions/runs/" ++ rid ++ rest).data =
        ghLit ++ (owner.data ++ '/' ::
          (repo.data ++ (runsLit ++ (rid.data ++ rest.data)))) := by
      simp only [data_append, ghLit_eq, runsLit_eq, slash_data]
      simp [ghLit, runsLit, List.append_assoc]
    have hslashHead : ∀ c ∈ ('/' ::
        (repo.data ++ (runsLit ++ (rid.data ++ rest.data)))).head?, (c != '/') = false := by
      intro c hc
      simp only [List.head?_cons, Option.mem_def, Option.some.injEq] at hc
      subst hc
      rfl
    have hrunsHead : ∀ c ∈ (runsLit ++ (rid.data ++ rest.data)).head?,
        (c != '/') = false := by
      intro c hc
      rw [show runsLit ++ (rid.data ++ rest.data) =
        '/' :: ("actions/runs/".data ++ (rid.data ++ rest.data)) from rfl] at hc
      simp only [List.head?_cons, Option.mem_def, Option.some.injEq] at hc
      subst hc
      rfl
    have htw1 : ((owner.data ++ '/' ::
        (repo.data ++ (runsLit ++ (rid.data ++ rest.data)))).takeWhile
          (fun c => c != '/')) = owner.data :=
      takeWhile_append_stop _ _ _ howner hslashHead
    have hdw1 : ((owner.data ++ '/' ::
        (repo.data ++ (runsLit ++ (rid.data ++ rest.data)))).dropWhile
          (fun c => c != '/')) =
        '/' :: (repo.data ++ (runsLit ++ (rid.data ++ rest.data))) :=
      dropWhile_append_stop _ _ _ howner hslashHead
    have htw3 : ((repo.data ++ (runsLit ++ (rid.data ++ rest.data))).takeWhile
        (fun c => c != '/')) = repo.data :=
      takeWhile_append_stop _ _ _ hrepo hrunsHead
    have hdw3 : ((repo.data ++ (runsLit ++ (rid.data ++ rest.data))).dropWhile
        (fun c => c != '/')) = runsLit ++ (rid.data ++ rest.data) :=
      dropWhile_append_stop _ _ _ hrepo hrunsHead
    have htw5 : ((rid.data ++ rest.data).takeWhile isReDigit) = rid.data :=
      takeWhile_append_stop _ _ _ hi2 hrest
    have hod : owner.data ≠ [] := fun h => ho1 (String.ext h)
    have hrd : repo.data ≠ [] := fun h => hr1c (String.ext h)
    have hid : rid.data ≠ [] := fun h => hi1 (String.ext h)
    unfold parse_run_url
    rw [hdata, (dropLit_iff ghLit _ _).mpr rfl]
    simp only [htw1, hdw1, htw3, hdw3, (dropLit_iff runsLit _ _).mpr rfl, htw5]
    rw [if_neg hod, if_neg hrd, if_neg hid]
    have h2 : String.mk (owner.data ++ '/' :: repo.data) = owner ++ "/" ++ repo :=
      String.ext (by simp [data_append, mk_data, slash_data, List.append_assoc])
    have h3 : String.mk rid.data = rid := String.ext rfl
    rw [h2, h3]

/-- Witness for C9: a URL with a trailing `/job/...` segment parses to the
repo and run id taken from the matching prefix, and a run id written with the
Arabic-Indic digit `١` (U+0661, category Nd) is accepted, as `\d` does in the
source. -/
theorem c9_witness :
    (parse_run_url "https://github.com/acme/app/actions/runs/123/job/4" =
      some ("acme/app", "123")) ∧
    (parse_run_url "https://github.com/a/b/actions/runs/١" =
      some ("a/b", "١")) :=
  ⟨(c9_parse_run_url_characterization
      "https://github.com/acme/app/actions/runs/123/job/4"
      ("acme/app", "123")).mpr
    ⟨"acme", "app", "123", "/job/4", by decide, by decide, by decide, by decide,
     by decide, by decide, by decide,
     by intro c hc; simp at hc; subst hc; decide, by decide⟩,
   (c9_parse_run_url_characterization
      "https://github.com/a/b/actions/runs/١"
      ("a/b", "١")).mpr
    ⟨"a", "b", "١", "", by decide, by decide, by decide, by decide,
     by decide, by decide, by decide,
     by intro c hc; simp at hc, by decide⟩⟩
